import Mathlib

/-!
Verification of the inventory system (src/inventory_system.py): an in-memory
mapping from item names to integer quantities, with operations to add,
remove and query stock, report low-stock items, and persist the mapping to
a JSON file.

The Python dict is modelled as an insertion-ordered association list
(`Store`): assigning to an existing key updates its value in place keeping
its position, assigning a new key appends it at the end, and a dict built
by Python has pairwise distinct keys (`WFStore`).  Python integers are
`Int`.  The runtime type checks of `add_item` (`isinstance(item, str)`,
`isinstance(qty, int)`) are modelled by a tagged value type `PyVal`.
Each operation returns, along with its result, the list of severities of
the log records it emits, so that the logging side channel is observable.
-/

/-- A Python runtime value, as far as the `isinstance` validation in
`add_item` can observe it: a string, an integer, or a value of any other
type. -/
inductive PyVal where
  | vstr (s : String)
  | vint (n : Int)
  | vother
deriving DecidableEq

/-- `isinstance(v, str)`. -/
def PyVal.isStr : PyVal → Bool
  | .vstr _ => true
  | _ => false

/-- `isinstance(v, int)`. -/
def PyVal.isInt : PyVal → Bool
  | .vint _ => true
  | _ => false

/-- Severity of one emitted log record. -/
inductive Severity where
  | info
  | warning
  | error
deriving DecidableEq

/-- The inventory store: the Python dict `data`, as an insertion-ordered
association list from item name to quantity. -/
abbrev Store : Type := List (String × Int)

/-- Well-formedness of a store: a Python dict has pairwise distinct keys. -/
def WFStore (data : Store) : Prop := (data.map Prod.fst).Nodup

instance (data : Store) : Decidable (WFStore data) := by
  unfold WFStore; infer_instance

/-- The dict assignment `data[item] = v`: update the binding in place if the
key is present (keeping its position), otherwise append it at the end. -/
def dictSet (data : Store) (item : String) (v : Int) : Store :=
  match data with
  | [] => [(item, v)]
  | (k, q) :: rest =>
      if k = item then (k, v) :: rest else (k, q) :: dictSet rest item v

/-- The dict deletion `del data[item]`: drop the binding of `item`. -/
def dictDel (data : Store) (item : String) : Store :=
  match data with
  | [] => []
  | (k, q) :: rest => if k = item then rest else (k, q) :: dictDel rest item

/-- `add_item(data, item, qty)` (src/inventory_system.py lines 18-39).
Rejects a non-string item or non-integer quantity with an error log, an
empty item name with a warning log; otherwise performs
`data[item] = data.get(item, 0) + qty` and logs at info severity. -/
def add_item (data : Store) (item qty : PyVal) : Store × List Severity :=
  match item, qty with
  | .vstr s, .vint n =>
      if s = "" then (data, [.warning])
      else (dictSet data s ((List.lookup s data).getD 0 + n), [.info])
  | _, _ => (data, [.error])

/-- `remove_item(data, item, qty)` (src/inventory_system.py lines 42-66).
`data[item]` on an absent key raises `KeyError`, caught and logged as a
warning leaving the store unchanged; a present key with stock strictly
above `qty` is decremented, otherwise the key is deleted. -/
def remove_item (data : Store) (item : String) (qty : Int) :
    Store × List Severity :=
  match List.lookup item data with
  | none => (data, [.warning])
  | some q =>
      if q > qty then (dictSet data item (q - qty), [.info])
      else (dictDel data item, [.info])

/-- `get_qty(data, item)` (src/inventory_system.py lines 69-80):
`data.get(item, 0)`. -/
def get_qty (data : Store) (item : String) : Int :=
  (List.lookup item data).getD 0

/-- `check_low_items(data, threshold)` (src/inventory_system.py lines
144-156): `[item for item, qty in data.items() if qty < threshold]`. -/
def check_low_items (data : Store) (threshold : Int) : List String :=
  data.filterMap (fun p => if p.2 < threshold then some p.1 else none)

/-- Modelled from the spec: the content of a file on disk, as far as the
exception handlers of `load_data` can observe it.  The JSON codec
(Python's `json` module) is not part of this repository; per the spec, a
store of string keys and integer quantities serializes to a valid JSON
object that parses back to the same mapping (`goodJson`), and any other
content fails to decode (`badJson`). -/
inductive FileContent where
  | goodJson (d : Store)
  | badJson
deriving DecidableEq

/-- Modelled from the spec: the file system, a map from path to the content
of the file there, `none` when no file exists at the path. -/
abbrev FS : Type := String → Option FileContent

/-- `save_data(data, file)` (src/inventory_system.py lines 112-125): write
the JSON serialization of `data` to `file`, fully overwriting any existing
content, and log at info severity. -/
def save_data (fs : FS) (data : Store) (file : String) : FS × List Severity :=
  (fun p => if p = file then some (.goodJson data) else fs p, [.info])

/-- `load_data(file)` (src/inventory_system.py lines 83-109): read and
decode the JSON object at `file`; on `FileNotFoundError` return the empty
store with a warning log, on `JSONDecodeError` return the empty store with
an error log. -/
def load_data (fs : FS) (file : String) : Store × List Severity :=
  match fs file with
  | none => ([], [.warning])
  | some .badJson => ([], [.error])
  | some (.goodJson d) => (d, [.info])

/-- The data-model invariant: every item present in the mapping has a
strictly positive quantity. -/
def Invariant (data : Store) : Prop := ∀ p ∈ data, 0 < p.2

instance (data : Store) : Decidable (Invariant data) := by
  unfold Invariant; infer_instance

/-! ### Lemmas about the dict operations -/

theorem lookup_cons_of_ne {a k : String} {b : Int} {es : Store} (h : a ≠ k) :
    List.lookup a ((k, b) :: es) = List.lookup a es := by
  rw [List.lookup_cons, beq_eq_false_iff_ne.mpr h]

theorem lookup_dictSet_self (data : Store) (item : String) (v : Int) :
    List.lookup item (dictSet data item v) = some v := by
  induction data with
  | nil => simp [dictSet]
  | cons hd tl ih =>
      obtain ⟨k, q⟩ := hd
      by_cases hk : k = item
      · subst hk
        simp [dictSet]
      · rw [dictSet, if_neg hk, lookup_cons_of_ne (Ne.symm hk), ih]

theorem lookup_dictSet_ne {k item : String} (h : k ≠ item) (data : Store)
    (v : Int) : List.lookup k (dictSet data item v) = List.lookup k data := by
  induction data with
  | nil => simp [dictSet, lookup_cons_of_ne h]
  | cons hd tl ih =>
      obtain ⟨a, b⟩ := hd
      by_cases ha : a = item
      · subst ha
        rw [dictSet, if_pos rfl, lookup_cons_of_ne h, lookup_cons_of_ne h]
      · by_cases hka : k = a
        · subst hka
          rw [dictSet, if_neg ha]
          simp
        · rw [dictSet, if_neg ha, lookup_cons_of_ne hka,
            lookup_cons_of_ne hka, ih]

theorem lookup_dictDel_ne {k item : String} (h : k ≠ item) (data : Store) :
    List.lookup k (dictDel data item) = List.lookup k data := by
  induction data with
  | nil => simp [dictDel]
  | cons hd tl ih =>
      obtain ⟨a, b⟩ := hd
      by_cases ha : a = item
      · subst ha
        rw [dictDel, if_pos rfl, lookup_cons_of_ne h]
      · by_cases hka : k = a
        · subst hka
          rw [dictDel, if_neg ha]
          simp
        · rw [dictDel, if_neg ha, lookup_cons_of_ne hka,
            lookup_cons_of_ne hka, ih]

theorem lookup_eq_none_of_not_mem_keys {data : Store} {k : String}
    (h : k ∉ data.map Prod.fst) : List.lookup k data = none := by
  induction data with
  | nil => simp
  | cons hd tl ih =>
      obtain ⟨a, b⟩ := hd
      simp only [List.map_cons, List.mem_cons] at h
      push_neg at h
      rw [lookup_cons_of_ne h.1, ih h.2]

theorem lookup_dictDel_self {data : Store} {item : String}
    (hwf : WFStore data) :
    List.lookup item (dictDel data item) = none := by
  induction data with
  | nil => simp [dictDel]
  | cons hd tl ih =>
      obtain ⟨a, b⟩ := hd
      unfold WFStore at hwf
      simp only [List.map_cons, List.nodup_cons] at hwf
      by_cases ha : a = item
      · subst ha
        simpa [dictDel] using lookup_eq_none_of_not_mem_keys hwf.1
      · rw [dictDel, if_neg ha, lookup_cons_of_ne (Ne.symm ha)]
        exact ih hwf.2

theorem mem_dictSet {p : String × Int} {data : Store} {item : String}
    {v : Int} (hp : p ∈ dictSet data item v) : p = (item, v) ∨ p ∈ data := by
  induction data with
  | nil => simpa [dictSet] using hp
  | cons hd tl ih =>
      obtain ⟨k, q⟩ := hd
      by_cases hk : k = item
      · subst hk
        rw [dictSet, if_pos rfl, List.mem_cons] at hp
        rcases hp with hp | hp
        · exact Or.inl hp
        · exact Or.inr (List.mem_cons_of_mem _ hp)
      · rw [dictSet, if_neg hk, List.mem_cons] at hp
        rcases hp with hp | hp
        · exact Or.inr (hp ▸ List.mem_cons_self _ _)
        · rcases ih hp with hp' | hp'
          · exact Or.inl hp'
          · exact Or.inr (List.mem_cons_of_mem _ hp')

theorem mem_dictDel {p : String × Int} {data : Store} {item : String}
    (hp : p ∈ dictDel data item) : p ∈ data := by
  induction data with
  | nil => simp [dictDel] at hp
  | cons hd tl ih =>
      obtain ⟨k, q⟩ := hd
      by_cases hk : k = item
      · subst hk
        rw [dictDel, if_pos rfl] at hp
        exact List.mem_cons_of_mem _ hp
      · rw [dictDel, if_neg hk, List.mem_cons] at hp
        rcases hp with hp | hp
        · exact hp ▸ List.mem_cons_self _ _
        · exact List.mem_cons_of_mem _ (ih hp)

theorem lookup_mem {data : Store} {k : String} {v : Int}
    (h : List.lookup k data = some v) : (k, v) ∈ data := by
  induction data with
  | nil => simp at h
  | cons hd tl ih =>
      obtain ⟨a, b⟩ := hd
      by_cases hk : k = a
      · subst hk
        rw [List.lookup_cons_self, Option.some_inj] at h
        exact h ▸ List.mem_cons_self _ _
      · rw [lookup_cons_of_ne hk] at h
        exact List.mem_cons_of_mem _ (ih h)

/-! ### Claims -/

/-- C1, counterexample: the claim that `add` always preserves the
strict-positivity invariant fails.  The empty store satisfies the
invariant, yet `add_item` with quantity 0 (a valid call: string item,
integer quantity, non-empty name) stores the key "a" with quantity 0,
which violates the invariant.  The source performs
`data[item] = data.get(item, 0) + qty` with no sign check on `qty`. -/
theorem c1_invariant_counterexample :
    Invariant ([] : Store) ∧
    (add_item [] (.vstr "a") (.vint 0)).1 = [("a", 0)] ∧
    ¬ Invariant [("a", 0)] := by
  refine ⟨by decide, by decide, by decide⟩

/-- C1 (amended): starting from a store satisfying the invariant (every
present item has strictly positive quantity), `remove_item` always
preserves the invariant, and `add_item` preserves it provided the quantity
added is strictly positive; for a zero or negative quantity `add_item` can
break it. -/
theorem c1_invariant_preserved (data : Store) (item : String) (qty : Int)
    (hinv : Invariant data) :
    (0 < qty → Invariant (add_item data (.vstr item) (.vint qty)).1) ∧
    Invariant (remove_item data item qty).1 := by
  constructor
  · intro hqty
    by_cases hempty : item = ""
    · simpa [add_item, hempty] using hinv
    · intro p hp
      rw [add_item] at hp
      simp only [if_neg hempty] at hp
      rcases mem_dictSet hp with hp' | hp'
      · subst hp'
        rcases hlk : List.lookup item data with _ | q
        · simpa [hlk] using hqty
        · have hq : 0 < q := hinv _ (lookup_mem hlk)
          simp only [hlk, Option.getD_some]
          omega
      · exact hinv _ hp'
  · rw [remove_item]
    rcases hlk : List.lookup item data with _ | q
    · exact hinv
    · by_cases hgt : q > qty
      · simp only [if_pos hgt]
        intro p hp
        rcases mem_dictSet hp with hp' | hp'
        · subst hp'
          simp only
          omega
        · exact hinv _ hp'
      · simp only [if_neg hgt]
        intro p hp
        exact hinv _ (mem_dictDel hp)

/-- C1 (amended), witness at a concrete input: the store `[("a", 1)]`
satisfies the invariant, and both adding 2 of "b" and removing 2 of "b"
preserve it. -/
theorem c1_invariant_preserved_witness :
    Invariant [("a", 1)] ∧
    ((0 < (2 : Int) →
        Invariant (add_item [("a", 1)] (.vstr "b") (.vint 2)).1) ∧
      Invariant (remove_item [("a", 1)] "b" 2).1) :=
  ⟨by decide, c1_invariant_preserved [("a", 1)] "b" 2 (by decide)⟩

/-- C2: for every store, non-empty string item and integer qty, querying
the item after the add yields the old quantity plus qty:
`get_qty` after `add_item` equals `get_qty` before plus `qty` (with the
entry effectively created at 0 when the item was absent, via
`data.get(item, 0)`). -/
theorem c2_add_then_get (data : Store) (item : String) (qty : Int)
    (h : item ≠ "") :
    get_qty (add_item data (.vstr item) (.vint qty)).1 item =
      get_qty data item + qty := by
  rw [add_item]
  simp only [if_neg h, get_qty, lookup_dictSet_self, Option.getD_some]

/-- C2, witness at a concrete input: adding 10 apples to the empty store
makes `get_qty` report 0 + 10. -/
theorem c2_add_then_get_witness :
    "apple" ≠ "" ∧
    get_qty (add_item [] (.vstr "apple") (.vint 10)).1 "apple" =
      get_qty [] "apple" + 10 :=
  ⟨by decide, c2_add_then_get [] "apple" 10 (by decide)⟩

/-- C3: for every well-formed store in which `item` is present with current
quantity `q`, and every `qty` with `q ≤ qty`, removing `qty` deletes the
key: `item` is absent afterward (exact depletion and over-removal both
delete; no negative quantity is ever stored for `item`). -/
theorem c3_remove_depletes (data : Store) (item : String) (q qty : Int)
    (hwf : WFStore data) (hq : List.lookup item data = some q)
    (hle : q ≤ qty) :
    List.lookup item (remove_item data item qty).1 = none := by
  rw [remove_item, hq]
  simp only [if_neg (by omega : ¬ q > qty)]
  exact lookup_dictDel_self hwf

/-- C3, witness at a concrete input: removing 5 from a stock of 2 deletes
the key "a". -/
theorem c3_remove_depletes_witness :
    WFStore [("a", 2)] ∧ List.lookup "a" [("a", 2)] = some 2 ∧
    (2 : Int) ≤ 5 ∧
    List.lookup "a" (remove_item [("a", 2)] "a" 5).1 = none :=
  ⟨by decide, by decide, by decide,
    c3_remove_depletes [("a", 2)] "a" 2 5 (by decide) (by decide)
      (by decide)⟩

/-- C4: for every store in which `item` is present with current quantity
`q`, and every `qty` with `qty < q`, removing `qty` leaves `item` present
with quantity `q - qty`. -/
theorem c4_remove_decrements (data : Store) (item : String) (q qty : Int)
    (hq : List.lookup item data = some q) (hlt : qty < q) :
    List.lookup item (remove_item data item qty).1 = some (q - qty) ∧
    get_qty (remove_item data item qty).1 item = q - qty := by
  rw [remove_item, hq]
  simp only [if_pos (by omega : q > qty)]
  refine ⟨lookup_dictSet_self data item (q - qty), ?_⟩
  rw [get_qty, lookup_dictSet_self, Option.getD_some]

/-- C4, witness at a concrete input: removing 3 from a stock of 10 leaves
"apple" present with quantity 7. -/
theorem c4_remove_decrements_witness :
    List.lookup "apple" [("apple", 10)] = some 10 ∧ (3 : Int) < 10 ∧
    (List.lookup "apple" (remove_item [("apple", 10)] "apple" 3).1 =
        some 7 ∧
      get_qty (remove_item [("apple", 10)] "apple" 3).1 "apple" = 7) :=
  ⟨by decide, by decide,
    c4_remove_decrements [("apple", 10)] "apple" 10 3 (by decide)
      (by decide)⟩

/-- C5: for every store and every item not present in it, `remove_item`
returns the store unchanged for any qty, with no failure surfaced to the
caller — the `KeyError` is caught and only a warning is logged. -/
theorem c5_remove_absent (data : Store) (item : String) (qty : Int)
    (h : List.lookup item data = none) :
    remove_item data item qty = (data, [Severity.warning]) := by
  rw [remove_item, h]

/-- C5, witness at a concrete input: removing "orange" from a store that
has only apples leaves it unchanged and logs one warning. -/
theorem c5_remove_absent_witness :
    List.lookup "orange" [("apple", 7)] = none ∧
    remove_item [("apple", 7)] "orange" 1 =
      ([("apple", 7)], [Severity.warning]) :=
  ⟨by decide, c5_remove_absent [("apple", 7)] "orange" 1 (by decide)⟩

/-- C6: for every store, `add_item` called with a non-string item, a
non-integer qty, or an empty item name leaves the store unchanged and
returns normally (no exception, no error value); the rejection is only
logged, at error severity for a type failure and warning severity for an
empty name. -/
theorem c6_add_invalid_noop (data : Store) (item qty : PyVal)
    (h : item.isStr = false ∨ qty.isInt = false ∨ item = .vstr "") :
    (add_item data item qty).1 = data ∧
    ((add_item data item qty).2 = [Severity.error] ∨
      (add_item data item qty).2 = [Severity.warning]) := by
  cases item <;> cases qty <;>
    simp_all [add_item, PyVal.isStr, PyVal.isInt]

/-- C6, witness at a concrete input: adding under the empty item name ""
leaves the store unchanged and logs a warning. -/
theorem c6_add_invalid_noop_witness :
    ((PyVal.vstr "").isStr = false ∨ (PyVal.vint 3).isInt = false ∨
      PyVal.vstr "" = PyVal.vstr "") ∧
    ((add_item [("a", 1)] (.vstr "") (.vint 3)).1 = [("a", 1)] ∧
      ((add_item [("a", 1)] (.vstr "") (.vint 3)).2 = [Severity.error] ∨
        (add_item [("a", 1)] (.vstr "") (.vint 3)).2 =
          [Severity.warning])) :=
  ⟨by decide, c6_add_invalid_noop [("a", 1)] (.vstr "") (.vint 3)
    (by decide)⟩

theorem check_low_items_sublist (data : Store) (t : Int) :
    (check_low_items data t).Sublist (data.map Prod.fst) := by
  induction data with
  | nil => simp [check_low_items]
  | cons hd tl ih =>
      obtain ⟨k, q⟩ := hd
      by_cases hq : q < t
      · simpa [check_low_items, hq] using ih.cons₂ k
      · simpa [check_low_items, hq] using ih.cons k

/-- C7: `check_low_items` returns exactly the item names whose quantity is
strictly below the threshold, in the store's iteration order (its result
is a sublist of the store's key sequence), it does not mutate the store
(it is a pure function of it), and on the concrete store
a ↦ 2, b ↦ 10, c ↦ 4 with threshold 5 it returns ["a", "c"]. -/
theorem c7_low_stock (data : Store) (t : Int) :
    (check_low_items data t).Sublist (data.map Prod.fst) ∧
    (∀ itm : String,
      itm ∈ check_low_items data t ↔ ∃ q : Int, (itm, q) ∈ data ∧ q < t) ∧
    check_low_items [("a", 2), ("b", 10), ("c", 4)] 5 = ["a", "c"] := by
  refine ⟨check_low_items_sublist data t, ?_, by decide⟩
  intro itm
  rw [check_low_items, List.mem_filterMap]
  constructor
  · rintro ⟨⟨a, b⟩, hmem, heq⟩
    dsimp only at heq
    by_cases hb : b < t
    · rw [if_pos hb, Option.some_inj] at heq
      exact ⟨b, heq ▸ hmem, hb⟩
    · rw [if_neg hb] at heq
      cases heq
  · rintro ⟨q, hmem, hq⟩
    exact ⟨(itm, q), hmem, by dsimp only; rw [if_pos hq]⟩

/-- C8: saving a store of string keys and non-negative integer quantities
to a path and then loading from that same path returns a mapping equal to
the original store (no concurrent writer exists in the model: `save_data`
is the only write between the two calls). -/
theorem c8_save_load_round_trip (fs : FS) (data : Store) (file : String)
    (_hvals : ∀ p ∈ data, 0 ≤ p.2) :
    (load_data (save_data fs data file).1 file).1 = data := by
  simp [save_data, load_data]

/-- C8, witness at a concrete input: the store apple ↦ 7, banana ↦ 20
round-trips through "inventory.json" on an empty file system. -/
theorem c8_save_load_round_trip_witness :
    (∀ p ∈ ([("apple", 7), ("banana", 20)] : Store), 0 ≤ p.2) ∧
    (load_data
        (save_data (fun _ => none) [("apple", 7), ("banana", 20)]
          "inventory.json").1
        "inventory.json").1 = [("apple", 7), ("banana", 20)] :=
  ⟨by decide,
    c8_save_load_round_trip (fun _ => none) [("apple", 7), ("banana", 20)]
      "inventory.json" (by decide)⟩

/-- C9: `load_data` returns the empty mapping both when no file exists at
the path and when the file exists but does not decode as JSON; neither
case raises to the caller, and the two outcomes agree on the returned
mapping — only the log severity (warning vs error) distinguishes them. -/
theorem c9_load_soft_failures (fs fsb : FS) (file fileb : String)
    (hmiss : fs file = none)
    (hbad : fsb fileb = some FileContent.badJson) :
    load_data fs file = ([], [Severity.warning]) ∧
    load_data fsb fileb = ([], [Severity.error]) ∧
    (load_data fs file).1 = (load_data fsb fileb).1 := by
  refine ⟨?_, ?_, ?_⟩ <;> simp [load_data, hmiss, hbad]

/-- C9, witness at concrete inputs: a file system with no files at all and
one whose every file holds undecodable content both make `load_data`
return the empty mapping. -/
theorem c9_load_soft_failures_witness :
    ((fun _ => none : FS) "missing.json" = none ∧
      (fun _ => some FileContent.badJson : FS) "corrupt.json" =
        some FileContent.badJson) ∧
    (load_data (fun _ => none) "missing.json" =
        ([], [Severity.warning]) ∧
      load_data (fun _ => some FileContent.badJson) "corrupt.json" =
        ([], [Severity.error]) ∧
      (load_data (fun _ => none) "missing.json").1 =
        (load_data (fun _ => some FileContent.badJson) "corrupt.json").1) :=
  ⟨⟨rfl, rfl⟩,
    c9_load_soft_failures (fun _ => none)
      (fun _ => some FileContent.badJson) "missing.json" "corrupt.json"
      rfl rfl⟩

/-- C10 (frame property): `add_item` and `remove_item` change at most the
binding of the key they are given — every other key has the same presence
and quantity before and after the call. -/
theorem c10_frame (data : Store) (item k : String) (qty : Int)
    (hne : k ≠ item) :
    List.lookup k (add_item data (.vstr item) (.vint qty)).1 =
      List.lookup k data ∧
    List.lookup k (remove_item data item qty).1 = List.lookup k data := by
  constructor
  · by_cases hempty : item = ""
    · simp [add_item, hempty]
    · rw [add_item]
      simp only [if_neg hempty]
      exact lookup_dictSet_ne hne data _
  · rw [remove_item]
    rcases hlk : List.lookup item data with _ | q
    · rfl
    · by_cases hgt : q > qty
      · simp only [if_pos hgt]
        exact lookup_dictSet_ne hne data _
      · simp only [if_neg hgt]
        exact lookup_dictDel_ne hne data

/-- C10, witness at a concrete input: adding or removing "b" leaves the
binding of "a" untouched. -/
theorem c10_frame_witness :
    "a" ≠ "b" ∧
    (List.lookup "a" (add_item [("a", 5)] (.vstr "b") (.vint 1)).1 =
        List.lookup "a" [("a", 5)] ∧
      List.lookup "a" (remove_item [("a", 5)] "b" 1).1 =
        List.lookup "a" [("a", 5)]) :=
  ⟨by decide, c10_frame [("a", 5)] "b" "a" 1 (by decide)⟩
